import Mathlib

/-!
Shallow embedding of the rivulet message broker (src/rivulet/rivulet.py and
src/rivulet/exceptions.py) together with proofs about the claims of the
specification.

Modelling conventions:
- Redis ordered sets (zsets) are association lists from members to integer
  scores.  The lists carry no sortedness invariant; every query that redis
  would answer in score order sorts on access (sortByScore).  The commands
  zadd, zrem, zcard, zrange, zrangebyscore, zremrangebyscore are translated
  one to one.
- An absent redis key and an empty value are identified (as in redis, where
  deleting the last member removes the key): an absent messages or clients
  zset is the empty list, an absent ids counter is 0 (INCR on a missing key
  yields 1).
- json.dumps of the message envelope is modelled by the constructor
  MsgRaw.good; json.loads succeeds exactly on such members and fails on
  corrupt members (MsgRaw.corrupt).
- The four backend structures keyed by channel or client id become four
  fields of Backend, each a function from the id string to the value; the
  key-prefix scheme is folded into the field name.
- Python exceptions that can escape the client methods become constructors
  of PyErr: the three rivulet kinds plus the two unhandled standard errors
  that the read path can raise.
- Advisory locks only matter under concurrency; in this single-client
  sequential embedding acquisition always succeeds, so operations never
  raise the timeout kind.
-/

deriving instance DecidableEq for Except

namespace Rivulet

/-- An ordered set (redis zset): members of type alpha with integer scores. -/
abbrev ZSet (α : Type) := List (α × Int)

/-- Insert a member-score pair into a list so that scores stay ascending. -/
def insertByScore {α : Type} (p : α × Int) : ZSet α → ZSet α
  | [] => [p]
  | q :: qs => if p.2 < q.2 then p :: q :: qs else q :: insertByScore p qs

/-- Sort a zset by ascending score (redis iteration order). -/
def sortByScore {α : Type} : ZSet α → ZSet α
  | [] => []
  | p :: ps => insertByScore p (sortByScore ps)

/-- ZREM: remove every entry of the given member. -/
def zrem {α : Type} [DecidableEq α] (m : α) (z : ZSet α) : ZSet α :=
  z.filter (fun p => decide (p.1 ≠ m))

/-- ZADD: set the score of a member (insert or update). -/
def zadd {α : Type} [DecidableEq α] (m : α) (sc : Int) (z : ZSet α) : ZSet α :=
  zrem m z ++ [(m, sc)]

/-- ZSCORE: the score of a member, if present. -/
def zscore {α : Type} [DecidableEq α] (m : α) (z : ZSet α) : Option Int :=
  (z.find? (fun p => decide (p.1 = m))).map (·.2)

/-- ZRANGE 0 -1 WITHSCORES: all entries in score order. -/
def zrangeAll {α : Type} (z : ZSet α) : ZSet α := sortByScore z

/-- ZRANGEBYSCORE lo hi: the members with score in [lo, hi], in score order. -/
def zrangebyscoreMembers {α : Type} (lo hi : Int) (z : ZSet α) : List α :=
  (sortByScore (z.filter (fun p => decide (lo ≤ p.2 ∧ p.2 ≤ hi)))).map (·.1)

/-- ZREMRANGEBYSCORE lo hi: drop every entry with score in [lo, hi]. -/
def zremrangebyscore {α : Type} (lo hi : Int) (z : ZSet α) : ZSet α :=
  z.filter (fun p => decide (¬ (lo ≤ p.2 ∧ p.2 ≤ hi)))

/-- ZRANGE 0 0 WITHSCORES followed by [0][1]: the minimal score (0 on empty). -/
def zminScore {α : Type} (z : ZSet α) : Int :=
  match sortByScore z with
  | [] => 0
  | p :: _ => p.2

/-- Python min over a nonempty list of ints (0 on the empty list, never used there). -/
def listMin : List Int → Int
  | [] => 0
  | x :: xs => xs.foldl min x

/-- Python max over a nonempty list of ints (0 on the empty list, never used there). -/
def listMax : List Int → Int
  | [] => 0
  | x :: xs => xs.foldl max x

/-- Pointwise update of a string-indexed table. -/
def fupd {α : Type} (f : String → α) (k : String) (v : α) : String → α :=
  fun k' => if k' = k then v else f k'

/-- The decoded message envelope built by Client.write (rivulet.py lines 240-245). -/
structure Envelope where
  id : Int
  ts : Int
  src : String
  data : String
deriving DecidableEq, Repr

/-- A stored zset member of a messages key: either the json.dumps encoding of
an envelope, or a corrupt byte string that json.loads rejects. -/
inductive MsgRaw where
  | good (e : Envelope)
  | corrupt (s : String)
deriving DecidableEq, Repr

/-- json.loads on a stored member: succeeds exactly on well-formed encodings. -/
def decodeRaw : MsgRaw → Option Envelope
  | MsgRaw.good e => some e
  | MsgRaw.corrupt _ => none

/-- The list comprehension of rivulet.py lines 312-314: decode every raw
member, failing as soon as one member is corrupt. -/
def decodeAll : List MsgRaw → Option (List Envelope)
  | [] => some []
  | r :: rs =>
    match decodeRaw r, decodeAll rs with
    | some e, some es => some (e :: es)
    | _, _ => none

/-- messages[-1].id of a decoded batch (rivulet.py line 315); 0 on the empty
list, which the code never evaluates. -/
def lastId : List Envelope → Int
  | [] => 0
  | [e] => e.id
  | _ :: e :: es => lastId (e :: es)

/-- The Python exceptions that can escape a client method: the three rivulet
kinds of exceptions.py, plus the two standard-library errors that read can
raise without conversion. -/
inductive PyErr where
  | connectionError
  | backendError
  | timeoutError
  | jsonDecodeError
  | valueError
deriving DecidableEq, Repr

/-- The redis state: the four key families of the persisted layout, keyed by
channel id (messages, ids, clients) or client id (indexes). -/
structure Backend where
  messages : String → ZSet MsgRaw
  ids : String → Int
  clients : String → ZSet String
  indexes : String → ZSet String

/-- A redis instance with no rivulet keys. -/
def initState : Backend :=
  { messages := fun _ => []
  , ids := fun _ => 0
  , clients := fun _ => []
  , indexes := fun _ => [] }

/-- The client-side configuration held by a rivulet Client object. -/
structure Client where
  client_id : String
  bufsize : Int
deriving DecidableEq, Repr

/-- Enum of rivulet index policies (rivulet.py lines 23-27). -/
inductive IndexPolicy where
  | EARLIEST
  | CURRENT
  | LATEST
deriving DecidableEq, Repr

/-- The scores pulled in Client.subscribe lines 139-142: the cursor list of
the channel, taken as the singleton [0] when no client is subscribed. -/
def scoresOrZero (z : ZSet String) : List Int :=
  if z.isEmpty then [0] else (zrangeAll z).map (·.2)

/-- The members pulled in Client.subscribe lines 139-142. -/
def membersOf (z : ZSet String) : List String :=
  (zrangeAll z).map (·.1)

/-- The starting cursor chosen by IndexPolicy.LATEST (and the CURRENT
fallback): max over the current cursors, 0 on an unsubscribed channel. -/
def latestCursor (s : Backend) (ch : String) : Int :=
  listMax (scoresOrZero (s.clients ch))

/-- The starting cursor chosen by IndexPolicy.EARLIEST: min over the current
cursors, 0 on an unsubscribed channel. -/
def earliestCursor (s : Backend) (ch : String) : Int :=
  listMin (scoresOrZero (s.clients ch))

/-- The pipelined pair of zadds of Client.subscribe lines 155-158 (also the
shape of the cursor advance in read): set both mirrored cursors at once. -/
def setCursor (cid : String) (ch : String) (idx : Int) (s : Backend) : Backend :=
  { s with clients := fupd s.clients ch (zadd cid idx (s.clients ch))
         , indexes := fupd s.indexes cid (zadd ch idx (s.indexes cid)) }

/-- One iteration of the channel loop of Client.subscribe (lines 127-159). -/
def subscribeChannel (c : Client) (pol : IndexPolicy) (s : Backend) (ch : String) : Backend :=
  match pol with
  | IndexPolicy.EARLIEST => setCursor c.client_id ch (earliestCursor s ch) s
  | IndexPolicy.CURRENT =>
    if c.client_id ∈ membersOf (s.clients ch) then s
    else setCursor c.client_id ch (latestCursor s ch) s
  | IndexPolicy.LATEST => setCursor c.client_id ch (latestCursor s ch) s

/-- Client.subscribe: the per-channel protocol run sequentially over the list. -/
def subscribe (c : Client) (pol : IndexPolicy) (chans : List String) (s : Backend) : Backend :=
  chans.foldl (subscribeChannel c pol) s

/-- The message id INCR allocates for the next write on a channel. -/
def nextMsgId (s : Backend) (ch : String) : Int :=
  s.ids ch + 1

/-- Client.write (lines 234-251): allocate the next id under the channel lock,
build the envelope and add it to the messages zset with the id as score. -/
def write (c : Client) (ch : String) (d : String) (ts : Int) (s : Backend) : Backend :=
  { s with ids := fupd s.ids ch (nextMsgId s ch)
         , messages := fupd s.messages ch
             (zadd (MsgRaw.good { id := nextMsgId s ch, ts := ts, src := c.client_id, data := d })
               (nextMsgId s ch) (s.messages ch)) }

/-- One iteration of the channel loop of Client.unsubscribe (lines 183-202). -/
def unsubscribeChannel (c : Client) (s : Backend) (ch : String) : Backend :=
  let cl1 := zrem c.client_id (s.clients ch)
  let s1 : Backend :=
    { s with clients := fupd s.clients ch cl1
           , indexes := fupd s.indexes c.client_id (zrem ch (s.indexes c.client_id)) }
  if cl1.length ≠ 0 then
    { s1 with
        messages := fupd s1.messages ch (zremrangebyscore 0 (zminScore cl1) (s1.messages ch)) }
  else
    { s1 with messages := fupd s1.messages ch []
            , ids := fupd s1.ids ch 0 }

/-- Client.unsubscribe: the per-channel protocol run sequentially over the list. -/
def unsubscribe (c : Client) (chans : List String) (s : Backend) : Backend :=
  chans.foldl (unsubscribeChannel c) s

/-- The cooperative GC test of Client.read line 323. -/
def gcFires (c : Client) (minIdx cur : Int) : Bool :=
  decide (minIdx - c.bufsize > cur)

/-- A deferred pipeline command queued by the read loop (lines 316-325). -/
inductive Op where
  | zaddIndex (cid ch : String) (sc : Int)
  | zaddClient (ch cid : String) (sc : Int)
  | zremrange (ch : String) (lo hi : Int)
deriving DecidableEq, Repr

/-- Apply one queued pipeline command to the backend. -/
def applyOp (s : Backend) : Op → Backend
  | Op.zaddIndex cid ch sc =>
    { s with indexes := fupd s.indexes cid (zadd ch sc (s.indexes cid)) }
  | Op.zaddClient ch cid sc =>
    { s with clients := fupd s.clients ch (zadd cid sc (s.clients ch)) }
  | Op.zremrange ch lo hi =>
    { s with messages := fupd s.messages ch (zremrangebyscore lo hi (s.messages ch)) }

/-- Execute the deferred pipeline: apply queued commands in order. -/
def applyOps (ops : List Op) (s : Backend) : Backend :=
  ops.foldl applyOp s

/-- One entry of the zip at rivulet.py line 304: the (channel, cursor) pair,
the raw messages returned for it, and the clients snapshot taken for it. -/
abbrev InboxEntry := (String × Int) × List MsgRaw × ZSet String

/-- The zipped query results of Client.read lines 282-304: for every
subscription of the caller, the range query over the messages and the
snapshot of the clients zset, all taken against the same state. -/
def inboxOf (c : Client) (limit : Int) (s : Backend) : List InboxEntry :=
  (zrangeAll (s.indexes c.client_id)).map
    (fun p => (p, zrangebyscoreMembers (p.2 + 1) (p.2 + limit) (s.messages p.1),
               zrangeAll (s.clients p.1)))

/-- The per-channel loop of Client.read lines 308-326: decode, queue the dual
cursor advance, unpack the clients snapshot, queue the GC trim when the
hysteresis test fires, and collect the decoded messages.  Decoding a corrupt
member raises json.JSONDecodeError; unpacking an empty snapshot raises
ValueError; either aborts the read before the deferred pipeline executes. -/
def processInbox (c : Client) : List InboxEntry → Except PyErr (List Op × List (String × List Envelope))
  | [] => Except.ok ([], [])
  | ((ch, cur), raw, snap) :: rest =>
    if raw.isEmpty then processInbox c rest
    else
      match decodeAll raw with
      | none => Except.error PyErr.jsonDecodeError
      | some msgs =>
        if snap.isEmpty then Except.error PyErr.valueError
        else
          match processInbox c rest with
          | Except.error e => Except.error e
          | Except.ok (ops, lists) =>
            Except.ok
              (Op.zaddIndex c.client_id ch (lastId msgs)
                :: Op.zaddClient ch c.client_id (lastId msgs)
                :: ((if gcFires c (listMin (snap.map (·.2))) cur
                      then [Op.zremrange ch 0 (listMin (snap.map (·.2)))] else []) ++ ops)
              , (ch, msgs) :: lists)

/-- Client.read (lines 253-332): sweep all subscriptions, then flush the
deferred pipeline; on an error the pipeline is discarded and the state is
unchanged. -/
def read (c : Client) (limit : Int) (s : Backend) :
    Except PyErr (List (String × List Envelope) × Backend) :=
  match processInbox c (inboxOf c limit s) with
  | Except.error e => Except.error e
  | Except.ok (ops, lists) => Except.ok (lists, applyOps ops s)

/-- The mapping a read returns (its state effect projected away). -/
def readLists (c : Client) (limit : Int) (s : Backend) :
    Except PyErr (List (String × List Envelope)) :=
  (read c limit s).map (·.1)

/-- The state after a successful read, the prior state if the read failed. -/
def okState (x : Except PyErr (List (String × List Envelope) × Backend))
    (fallback : Backend) : Backend :=
  match x with
  | Except.ok (_, s) => s
  | Except.error _ => fallback

/-- Client.init: keep the supplied bufsize (default 4096) and subscribe to
the initial channels with the default CURRENT policy when given. -/
def clientInit (cid : String) (channel_ids : List String) (bufsize : Int)
    (s : Backend) : Client × Backend :=
  let c : Client := { client_id := cid, bufsize := bufsize }
  (c, if channel_ids.isEmpty then s else subscribe c IndexPolicy.CURRENT channel_ids s)

/-- The connect entry point (rivulet.py lines 335-352).  connect has no
explicit bufsize parameter; a bufsize keyword lands in redis_args and is
forwarded to Client.init, where Python keyword binding attaches it to the
bufsize parameter (default 4096) rather than passing it on to redis.  The
Option argument models presence of the keyword in redis_args. -/
def connect (cid : String) (channel_ids : List String) (kwBufsize : Option Int)
    (s : Backend) : Client × Backend :=
  clientInit cid channel_ids (kwBufsize.getD 4096) s

/-- Fold a list of write requests (client id, channel, payload, timestamp). -/
def doWrites (ws : List (String × String × String × Int)) (s : Backend) : Backend :=
  ws.foldl (fun t w => write { client_id := w.1, bufsize := 4096 } w.2.1 w.2.2.1 w.2.2.2 t) s

/-- The mirrored-cursor invariant of the spec: for every client and channel,
the channel's score in the client's indexes zset agrees with the client's
score in the channel's clients zset, including membership. -/
def mirrored (s : Backend) : Prop :=
  ∀ cl ch, zscore ch (s.indexes cl) = zscore cl (s.clients ch)

/-- States reachable from an empty redis by completed rivulet operations. -/
inductive Reachable : Backend → Prop where
  | init : Reachable initState
  | stepSubscribe (c : Client) (pol : IndexPolicy) (chans : List String) (s : Backend) :
      Reachable s → Reachable (subscribe c pol chans s)
  | stepWrite (c : Client) (ch d : String) (ts : Int) (s : Backend) :
      Reachable s → Reachable (write c ch d ts s)
  | stepUnsubscribe (c : Client) (chans : List String) (s : Backend) :
      Reachable s → Reachable (unsubscribe c chans s)
  | stepRead (c : Client) (limit : Int) (s : Backend) (r : List (String × List Envelope))
      (s' : Backend) : Reachable s → read c limit s = Except.ok (r, s') → Reachable s'

/-! Helper lemmas about the zset primitives. -/

theorem fupd_same {α : Type} (f : String → α) (k : String) (v : α) : fupd f k v k = v := by
  simp [fupd]

theorem fupd_ne {α : Type} (f : String → α) {k k' : String} (v : α) (h : k' ≠ k) :
    fupd f k v k' = f k' := by
  simp [fupd, h]

theorem fupd_fupd_same {α : Type} (f : String → α) (k : String) (u v : α) :
    fupd (fupd f k u) k v = fupd f k v := by
  funext x
  by_cases h : x = k <;> simp [fupd, h]

theorem fupd_comm {α : Type} (f : String → α) {k k' : String} (u v : α) (h : k ≠ k') :
    fupd (fupd f k u) k' v = fupd (fupd f k' v) k u := by
  funext x
  by_cases h1 : x = k
  · subst h1
    simp [fupd, h]
  · by_cases h2 : x = k'
    · subst h2
      simp [fupd, h1]
    · simp [fupd, h1, h2]

theorem fupd_eq_self {α : Type} (f : String → α) (k : String) (v : α) (h : f k = v) :
    fupd f k v = f := by
  funext x
  by_cases h1 : x = k
  · subst h1; simp [fupd, h]
  · simp [fupd, h1]

theorem mem_zrem_ne {α : Type} [DecidableEq α] {m : α} {z : ZSet α} {p : α × Int}
    (h : p ∈ zrem m z) : p.1 ≠ m := by
  have := List.of_mem_filter h
  simpa using this

theorem zrem_eq_self {α : Type} [DecidableEq α] {m : α} {z : ZSet α}
    (h : ∀ p ∈ z, p.1 ≠ m) : zrem m z = z := by
  induction z with
  | nil => rfl
  | cons p ps ih =>
    have hp : p.1 ≠ m := h p (List.mem_cons_self p ps)
    simp only [zrem, List.filter_cons, decide_eq_true_eq]
    rw [if_pos (by simpa using hp)]
    have : zrem m ps = ps := ih (fun q hq => h q (List.mem_cons_of_mem p hq))
    simpa [zrem] using congrArg (p :: ·) this

theorem zrem_idem {α : Type} [DecidableEq α] (m : α) (z : ZSet α) :
    zrem m (zrem m z) = zrem m z :=
  zrem_eq_self (fun _ hp => mem_zrem_ne hp)

theorem zrem_eq_nil {α : Type} [DecidableEq α] {m : α} {z : ZSet α}
    (h : ∀ p ∈ z, p.1 = m) : zrem m z = [] := by
  simp only [zrem, List.filter_eq_nil_iff]
  intro p hp
  simp [h p hp]

theorem zrem_comm {α : Type} [DecidableEq α] (m m' : α) (z : ZSet α) :
    zrem m (zrem m' z) = zrem m' (zrem m z) := by
  simp only [zrem, List.filter_filter]
  congr 1
  funext p
  exact Bool.and_comm _ _

theorem zscore_zrem_self {α : Type} [DecidableEq α] (m : α) (z : ZSet α) :
    zscore m (zrem m z) = none := by
  have : (zrem m z).find? (fun p => decide (p.1 = m)) = none := by
    rw [List.find?_eq_none]
    intro p hp
    simpa using mem_zrem_ne hp
  simp [zscore, this]

theorem zscore_zrem_ne {α : Type} [DecidableEq α] {m m' : α} (z : ZSet α) (h : m' ≠ m) :
    zscore m' (zrem m z) = zscore m' z := by
  induction z with
  | nil => rfl
  | cons p ps ih =>
    simp only [zscore, zrem] at ih ⊢
    by_cases hp : p.1 = m
    · have hp' : ¬ p.1 = m' := by rw [hp]; exact fun hh => h hh.symm
      rw [List.filter_cons_of_neg (by simp [hp])]
      rw [List.find?_cons_of_neg _ (by simpa using hp')]
      exact ih
    · rw [List.filter_cons_of_pos (by simp [hp])]
      by_cases hp2 : p.1 = m'
      · rw [List.find?_cons_of_pos _ (by simpa using hp2),
          List.find?_cons_of_pos _ (by simpa using hp2)]
      · rw [List.find?_cons_of_neg _ (by simpa using hp2),
          List.find?_cons_of_neg _ (by simpa using hp2)]
        exact ih

theorem zscore_zadd_self {α : Type} [DecidableEq α] (m : α) (sc : Int) (z : ZSet α) :
    zscore m (zadd m sc z) = some sc := by
  have h1 : (zrem m z).find? (fun p => decide (p.1 = m)) = none := by
    rw [List.find?_eq_none]
    intro p hp
    simpa using mem_zrem_ne hp
  simp [zadd, zscore, List.find?_append, h1, List.find?]

theorem zscore_zadd_ne {α : Type} [DecidableEq α] {m m' : α} (sc : Int) (z : ZSet α)
    (h : m' ≠ m) : zscore m' (zadd m sc z) = zscore m' z := by
  have h2 : ([(m, sc)] : ZSet α).find? (fun p => decide (p.1 = m')) = none := by
    rw [List.find?_eq_none]
    intro p hp
    simp only [List.mem_singleton] at hp
    subst hp
    simpa using fun hh => h hh.symm
  have h3 := zscore_zrem_ne z h
  simp only [zscore] at h3
  simp [zadd, zscore, List.find?_append, h2, h3]

theorem insertByScore_perm {α : Type} (p : α × Int) (l : ZSet α) :
    (insertByScore p l).Perm (p :: l) := by
  induction l with
  | nil => exact List.Perm.refl _
  | cons q qs ih =>
    simp only [insertByScore]
    split
    · exact List.Perm.refl _
    · exact (ih.cons q).trans (List.Perm.swap p q qs)

theorem sortByScore_perm {α : Type} (l : ZSet α) : (sortByScore l).Perm l := by
  induction l with
  | nil => exact List.Perm.refl _
  | cons p ps ih => exact (insertByScore_perm p (sortByScore ps)).trans (ih.cons p)

theorem foldl_min_le_init (xs : List Int) (a : Int) : xs.foldl min a ≤ a := by
  induction xs generalizing a with
  | nil => simp
  | cons b bs ih =>
    calc bs.foldl min (min a b) ≤ min a b := ih (min a b)
      _ ≤ a := min_le_left a b

theorem foldl_min_le_mem {xs : List Int} {x : Int} (a : Int) (h : x ∈ xs) :
    xs.foldl min a ≤ x := by
  induction xs generalizing a with
  | nil => cases h
  | cons b bs ih =>
    rcases List.mem_cons.mp h with rfl | hx
    · calc bs.foldl min (min a x) ≤ min a x := foldl_min_le_init bs (min a x)
        _ ≤ x := min_le_right a x
    · exact ih (min a b) hx

theorem listMin_le {l : List Int} {x : Int} (h : x ∈ l) : listMin l ≤ x := by
  cases l with
  | nil => cases h
  | cons y ys =>
    rcases List.mem_cons.mp h with rfl | hx
    · exact foldl_min_le_init ys x
    · exact foldl_min_le_mem y hx

theorem init_le_foldl_max (xs : List Int) (a : Int) : a ≤ xs.foldl max a := by
  induction xs generalizing a with
  | nil => simp
  | cons b bs ih =>
    calc a ≤ max a b := le_max_left a b
      _ ≤ bs.foldl max (max a b) := ih (max a b)

theorem mem_le_foldl_max {xs : List Int} {x : Int} (a : Int) (h : x ∈ xs) :
    x ≤ xs.foldl max a := by
  induction xs generalizing a with
  | nil => cases h
  | cons b bs ih =>
    rcases List.mem_cons.mp h with rfl | hx
    · calc x ≤ max a x := le_max_right a x
        _ ≤ bs.foldl max (max a x) := init_le_foldl_max bs (max a x)
    · exact ih (max a b) hx

theorem le_listMax {l : List Int} {x : Int} (h : x ∈ l) : x ≤ listMax l := by
  cases l with
  | nil => cases h
  | cons y ys =>
    rcases List.mem_cons.mp h with rfl | hx
    · exact init_le_foldl_max ys x
    · exact mem_le_foldl_max y hx

theorem backendExt {s t : Backend} (h1 : s.messages = t.messages) (h2 : s.ids = t.ids)
    (h3 : s.clients = t.clients) (h4 : s.indexes = t.indexes) : s = t := by
  cases s; cases t
  simp_all

/-! Preservation of the mirrored-cursor invariant. -/

theorem applyOps_cons (op : Op) (ops : List Op) (s : Backend) :
    applyOps (op :: ops) s = applyOps ops (applyOp s op) := rfl

theorem applyOps_append (l1 l2 : List Op) (s : Backend) :
    applyOps (l1 ++ l2) s = applyOps l2 (applyOps l1 s) := by
  simp [applyOps, List.foldl_append]

theorem applyOp_pair (s : Backend) (cid ch : String) (n : Int) :
    applyOp (applyOp s (Op.zaddIndex cid ch n)) (Op.zaddClient ch cid n) =
      setCursor cid ch n s := rfl

theorem mirrored_initState : mirrored initState := by
  intro cl ch
  rfl

theorem mirrored_setCursor {s : Backend} (h : mirrored s) (cid ch : String) (idx : Int) :
    mirrored (setCursor cid ch idx s) := by
  intro cl ch'
  show zscore ch' (fupd s.indexes cid (zadd ch idx (s.indexes cid)) cl) =
    zscore cl (fupd s.clients ch (zadd cid idx (s.clients ch)) ch')
  by_cases hc : cl = cid
  · subst hc
    by_cases hch : ch' = ch
    · subst hch
      rw [fupd_same, fupd_same, zscore_zadd_self, zscore_zadd_self]
    · rw [fupd_same, fupd_ne _ _ hch, zscore_zadd_ne _ _ hch]
      exact h cl ch'
  · by_cases hch : ch' = ch
    · subst hch
      rw [fupd_ne _ _ hc, fupd_same, zscore_zadd_ne _ _ hc]
      exact h cl ch'
    · rw [fupd_ne _ _ hc, fupd_ne _ _ hch]
      exact h cl ch'

theorem mirrored_zremPair {s : Backend} (h : mirrored s) (cid ch : String) :
    mirrored { s with clients := fupd s.clients ch (zrem cid (s.clients ch))
                    , indexes := fupd s.indexes cid (zrem ch (s.indexes cid)) } := by
  intro cl ch'
  show zscore ch' (fupd s.indexes cid (zrem ch (s.indexes cid)) cl) =
    zscore cl (fupd s.clients ch (zrem cid (s.clients ch)) ch')
  by_cases hc : cl = cid
  · subst hc
    by_cases hch : ch' = ch
    · subst hch
      rw [fupd_same, fupd_same, zscore_zrem_self, zscore_zrem_self]
    · rw [fupd_same, fupd_ne _ _ hch, zscore_zrem_ne _ hch]
      exact h cl ch'
  · by_cases hch : ch' = ch
    · subst hch
      rw [fupd_ne _ _ hc, fupd_same, zscore_zrem_ne _ hc]
      exact h cl ch'
    · rw [fupd_ne _ _ hc, fupd_ne _ _ hch]
      exact h cl ch'

theorem processInbox_mirror (c : Client) (inbox : List InboxEntry)
    (ops : List Op) (lists : List (String × List Envelope))
    (hp : processInbox c inbox = Except.ok (ops, lists)) :
    ∀ s : Backend, mirrored s → mirrored (applyOps ops s) := by
  induction inbox generalizing ops lists with
  | nil =>
    intro s hs
    simp only [processInbox, Except.ok.injEq, Prod.mk.injEq] at hp
    obtain ⟨h1, h2⟩ := hp
    subst h1
    exact hs
  | cons e rest ih =>
    obtain ⟨⟨ch, cur⟩, raw, snap⟩ := e
    intro s hs
    simp only [processInbox] at hp
    by_cases hraw : raw.isEmpty
    · rw [if_pos hraw] at hp
      exact ih ops lists hp s hs
    · rw [if_neg hraw] at hp
      split at hp
      · cases hp
      · rename_i msgs hdec
        split at hp
        · cases hp
        · split at hp
          · cases hp
          · rename_i ops' lists' hrest
            simp only [Except.ok.injEq, Prod.mk.injEq] at hp
            obtain ⟨hops, hlists⟩ := hp
            subst hops
            rw [applyOps_cons, applyOps_cons, applyOps_append, applyOp_pair]
            apply ih ops' lists' hrest
            have hm := mirrored_setCursor hs c.client_id ch (lastId msgs)
            by_cases hgc : gcFires c (listMin (snap.map (·.2))) cur
            · rw [if_pos hgc]
              exact hm
            · rw [if_neg hgc]
              exact hm

theorem mirrored_write {s : Backend} (h : mirrored s) (c : Client) (ch d : String)
    (ts : Int) : mirrored (write c ch d ts s) := h

theorem mirrored_subscribeChannel {s : Backend} (h : mirrored s) (c : Client)
    (pol : IndexPolicy) (ch : String) : mirrored (subscribeChannel c pol s ch) := by
  cases pol with
  | EARLIEST => exact mirrored_setCursor h _ _ _
  | CURRENT =>
    simp only [subscribeChannel]
    split
    · exact h
    · exact mirrored_setCursor h _ _ _
  | LATEST => exact mirrored_setCursor h _ _ _

theorem mirrored_unsubscribeChannel {s : Backend} (h : mirrored s) (c : Client)
    (ch : String) : mirrored (unsubscribeChannel c s ch) := by
  have h1 := mirrored_zremPair h c.client_id ch
  simp only [unsubscribeChannel]
  split
  · exact h1
  · exact h1

theorem foldl_preserves {β : Type} (P : Backend → Prop) (f : Backend → β → Backend)
    (hf : ∀ s b, P s → P (f s b)) :
    ∀ (l : List β) (s : Backend), P s → P (l.foldl f s) := by
  intro l
  induction l with
  | nil => intro s hs; exact hs
  | cons b bs ih => intro s hs; exact ih (f s b) (hf s b hs)

theorem mirrored_read {s s' : Backend} (h : mirrored s) (c : Client) (limit : Int)
    (r : List (String × List Envelope)) (hr : read c limit s = Except.ok (r, s')) :
    mirrored s' := by
  unfold read at hr
  cases hp : processInbox c (inboxOf c limit s) with
  | error e => rw [hp] at hr; cases hr
  | ok pr =>
    obtain ⟨ops, lists⟩ := pr
    rw [hp] at hr
    simp only [Except.ok.injEq, Prod.mk.injEq] at hr
    obtain ⟨hl, hs'⟩ := hr
    subst hs'
    exact processInbox_mirror c _ ops lists hp s h

/-- C4: after every completed operation (subscribe, read, unsubscribe, and
also write), for every client C and channel ch, the score of ch in the
indexes zset of C equals the score of C in the clients zset of ch, and C is
a member of one iff it is a member of the other; i.e. the mirrored-cursor
invariant holds in every state reachable from an empty backend. -/
theorem mirror_invariant (s : Backend) (h : Reachable s) : mirrored s := by
  induction h with
  | init => exact mirrored_initState
  | stepSubscribe c pol chans s0 _ ih =>
    exact foldl_preserves mirrored (subscribeChannel c pol)
      (fun t b ht => mirrored_subscribeChannel ht c pol b) chans s0 ih
  | stepWrite c ch d ts s0 _ ih => exact mirrored_write ih c ch d ts
  | stepUnsubscribe c chans s0 _ ih =>
    exact foldl_preserves mirrored (unsubscribeChannel c)
      (fun t b ht => mirrored_unsubscribeChannel ht c b) chans s0 ih
  | stepRead c limit s0 r s' _ hread ih => exact mirrored_read ih c limit r hread

/-- Witness for C4: the invariant instantiated at the empty reachable state. -/
theorem mirror_invariant_witness : mirrored initState :=
  mirror_invariant initState Reachable.init

/-! Monotone, gap-free message ids (C3). -/

/-- The integer interval 1..n as a list (empty for n below 1). -/
def intRange (n : Int) : List Int :=
  (List.range n.toNat).map (fun (i : Nat) => (i : Int) + 1)

theorem intRange_succ {n : Int} (h : 0 ≤ n) : intRange (n + 1) = intRange n ++ [n + 1] := by
  unfold intRange
  have h1 : (n + 1).toNat = n.toNat + 1 := by omega
  rw [h1, List.range_succ, List.map_append]
  have h2 : ((n.toNat : Int)) = n := Int.toNat_of_nonneg h
  simp [h2, h]

theorem mem_intRange {n x : Int} (h : x ∈ intRange n) : 1 ≤ x ∧ x ≤ n := by
  unfold intRange at h
  simp only [List.mem_map, List.mem_range] at h
  obtain ⟨i, hi, rfl⟩ := h
  constructor <;> omega

/-- Well-formedness of every messages zset: the scores are exactly the
interval from 1 to the channel counter, and every member is a well-formed
envelope whose embedded id equals its score. -/
def WfMsgs (s : Backend) : Prop :=
  ∀ ch, (s.messages ch).map (·.2) = intRange (s.ids ch) ∧
    (∀ p ∈ s.messages ch, ∃ e, p.1 = MsgRaw.good e ∧ e.id = p.2) ∧ 0 ≤ s.ids ch

theorem wfMsgs_initState : WfMsgs initState := by
  intro ch
  refine ⟨by simp [initState, intRange], ?_, le_refl 0⟩
  intro p hp
  cases hp

theorem write_messages (c : Client) (ch d : String) (ts : Int) (s : Backend) :
    (write c ch d ts s).messages = fupd s.messages ch
      (zadd (MsgRaw.good { id := nextMsgId s ch, ts := ts, src := c.client_id, data := d })
        (nextMsgId s ch) (s.messages ch)) := rfl

theorem write_ids (c : Client) (ch d : String) (ts : Int) (s : Backend) :
    (write c ch d ts s).ids = fupd s.ids ch (nextMsgId s ch) := rfl

theorem wfMsgs_write {s : Backend} (h : WfMsgs s) (c : Client) (ch d : String)
    (ts : Int) : WfMsgs (write c ch d ts s) := by
  intro ch'
  obtain ⟨h1, h2, h3⟩ := h ch'
  rw [write_messages, write_ids]
  by_cases hc : ch' = ch
  · subst hc
    rw [fupd_same, fupd_same]
    have hnotmem : ∀ p ∈ s.messages ch',
        p.1 ≠ MsgRaw.good { id := nextMsgId s ch', ts := ts, src := c.client_id, data := d } := by
      intro p hp hcontra
      obtain ⟨e, he, hid⟩ := h2 p hp
      rw [he] at hcontra
      have he2 : e = { id := nextMsgId s ch', ts := ts, src := c.client_id, data := d } := by
        injection hcontra
      have hp2 : p.2 ∈ (s.messages ch').map (·.2) := List.mem_map_of_mem _ hp
      rw [h1] at hp2
      have hb := mem_intRange hp2
      rw [he2] at hid
      simp only [nextMsgId] at hid
      omega
    unfold zadd
    rw [zrem_eq_self hnotmem]
    refine ⟨?_, ?_, ?_⟩
    · rw [List.map_append, h1]
      simp only [nextMsgId, List.map_cons, List.map_nil]
      exact (intRange_succ h3).symm
    · intro p hp
      rcases List.mem_append.mp hp with hold | hnew
      · exact h2 p hold
      · simp only [List.mem_singleton] at hnew
        subst hnew
        exact ⟨_, rfl, rfl⟩
    · simp only [nextMsgId]
      omega
  · rw [fupd_ne _ _ hc, fupd_ne _ _ hc]
    exact ⟨h1, h2, h3⟩

theorem wfMsgs_doWrites (ws : List (String × String × String × Int)) :
    WfMsgs (doWrites ws initState) :=
  foldl_preserves WfMsgs _ (fun _ _ hs => wfMsgs_write hs _ _ _ _) ws initState wfMsgs_initState

/-- C3: a write allocates exactly the successor of the previous allocation
(so two successive writes on a channel produce strictly increasing ids), the
first write on a fresh channel allocates id 1, and after any sequence of
writes from the empty state the scores in a channel's messages zset are
exactly the gap-free, duplicate-free interval 1..counter, with every stored
envelope's embedded id equal to its score. -/
theorem monotone_gapfree_ids :
    (∀ (c : Client) (ch d : String) (ts : Int) (s : Backend),
        nextMsgId (write c ch d ts s) ch = nextMsgId s ch + 1) ∧
    (∀ ch : String, nextMsgId initState ch = 1) ∧
    (∀ (ws : List (String × String × String × Int)) (ch : String),
        ((doWrites ws initState).messages ch).map (·.2) =
          intRange ((doWrites ws initState).ids ch) ∧
        ∀ p ∈ (doWrites ws initState).messages ch,
          ∃ e, p.1 = MsgRaw.good e ∧ e.id = p.2) := by
  refine ⟨?_, ?_, ?_⟩
  · intro c ch d ts s
    simp [nextMsgId, write, fupd_same]
  · intro ch
    rfl
  · intro ws ch
    obtain ⟨h1, h2, _⟩ := wfMsgs_doWrites ws ch
    exact ⟨h1, h2⟩

/-- Witness for C3: the id conjuncts evaluated on a concrete two-write trace. -/
theorem monotone_gapfree_ids_witness :
    nextMsgId (write { client_id := "A", bufsize := 4096 } "x" "d" 0 initState) "x" =
      nextMsgId initState "x" + 1 ∧
    nextMsgId initState "x" = 1 ∧
    ((doWrites [("A", "x", "m1", 7), ("A", "x", "m2", 8)] initState).messages "x").map (·.2) =
      intRange ((doWrites [("A", "x", "m1", 7), ("A", "x", "m2", 8)] initState).ids "x") :=
  ⟨monotone_gapfree_ids.1 { client_id := "A", bufsize := 4096 } "x" "d" 0 initState,
   monotone_gapfree_ids.2.1 "x",
   (monotone_gapfree_ids.2.2 [("A", "x", "m1", 7), ("A", "x", "m2", 8)] "x").1⟩

/-! Zero-subscriber collection (C5). -/

/-- C5: an unsubscribe that removes the last remaining subscriber of a
channel deletes the channel's messages zset and its id counter (deleted keys
being modelled by the empty zset and the zero counter). -/
theorem zero_subscriber_collection (c : Client) (ch : String) (s : Backend)
    (h : ∀ p ∈ s.clients ch, p.1 = c.client_id) :
    (unsubscribe c [ch] s).messages ch = [] ∧ (unsubscribe c [ch] s).ids ch = 0 := by
  have hnil : zrem c.client_id (s.clients ch) = [] := zrem_eq_nil h
  simp only [unsubscribe, List.foldl_cons, List.foldl_nil, unsubscribeChannel]
  rw [if_neg (by simp [hnil])]
  constructor
  · exact fupd_same _ _ _
  · exact fupd_same _ _ _

/-- A concrete client used by the witnesses and counterexamples. -/
def cA : Client := { client_id := "A", bufsize := 4096 }

/-- A second concrete client used by the witnesses and counterexamples. -/
def cB : Client := { client_id := "B", bufsize := 4096 }

/-- A state in which client A is the sole subscriber of channel x, with two
buffered messages. -/
def soleSubState : Backend :=
  doWrites [("A", "x", "m1", 7), ("A", "x", "m2", 8)]
    (subscribe cA IndexPolicy.CURRENT ["x"] initState)

/-- Witness for C5: client A is the sole subscriber of channel x in
soleSubState, and its unsubscribe deletes the messages and the counter. -/
theorem zero_subscriber_collection_witness :
    (∀ p ∈ soleSubState.clients "x", p.1 = cA.client_id) ∧
    (unsubscribe cA ["x"] soleSubState).messages "x" = [] ∧
    (unsubscribe cA ["x"] soleSubState).ids "x" = 0 :=
  ⟨by decide, zero_subscriber_collection cA "x" soleSubState (by decide)⟩

/-! Configuration flow of bufsize (C10). -/

/-- C10: connect accepts a bufsize keyword: it travels through the
pass-through backend arguments and Python keyword binding delivers it to the
bufsize parameter of Client.init (default 4096) instead of the redis
constructor; the constructed client's bufsize is exactly the threshold the
read path's GC hysteresis test uses. -/
theorem connect_bufsize :
    (∀ (cid : String) (chans : List String) (s : Backend),
        ((connect cid chans none s).1).bufsize = 4096) ∧
    (∀ (cid : String) (chans : List String) (b : Int) (s : Backend),
        ((connect cid chans (some b) s).1).bufsize = b) ∧
    (∀ (cid : String) (chans : List String) (b : Int) (s : Backend) (minIdx cur : Int),
        gcFires ((connect cid chans (some b) s).1) minIdx cur = decide (minIdx - b > cur)) :=
  ⟨fun _ _ _ => rfl, fun _ _ _ _ => rfl, fun _ _ _ _ _ _ => rfl⟩

/-- Witness for C10: the bufsize flow evaluated at concrete arguments. -/
theorem connect_bufsize_witness :
    ((connect "A" [] none initState).1).bufsize = 4096 ∧
    ((connect "A" [] (some 7) initState).1).bufsize = 7 :=
  ⟨connect_bufsize.1 "A" [] initState, connect_bufsize.2.1 "A" [] 7 initState⟩

/-! The read path queues no GC for a channel whose snapshot holds the
reader's own cursor (C7). -/

theorem zscore_mem {α : Type} [DecidableEq α] {m : α} {z : ZSet α} {sc : Int}
    (h : zscore m z = some sc) : (m, sc) ∈ z := by
  unfold zscore at h
  cases hf : z.find? (fun p => decide (p.1 = m)) with
  | none => rw [hf] at h; cases h
  | some p =>
    rw [hf] at h
    simp only [Option.map_some'] at h
    have hmem := List.mem_of_find?_eq_some hf
    have hpred := List.find?_some hf
    simp only [decide_eq_true_eq] at hpred
    have hp : p = (m, sc) := by
      obtain ⟨p1, p2⟩ := p
      simp_all
    rw [← hp]
    exact hmem

theorem zset_key_unique {α : Type} {l : ZSet α} (hnd : (l.map (·.1)).Nodup) {a : α}
    {b c : Int} (h1 : (a, b) ∈ l) (h2 : (a, c) ∈ l) : b = c := by
  induction l with
  | nil => cases h1
  | cons p ps ih =>
    simp only [List.map_cons, List.nodup_cons] at hnd
    obtain ⟨hp, hps⟩ := hnd
    rcases List.mem_cons.mp h1 with heq1 | h1'
    · rcases List.mem_cons.mp h2 with heq2 | h2'
      · have hbc := heq2.trans heq1.symm
        exact (Prod.mk.injEq _ _ _ _ ▸ hbc).2.symm
      · exfalso
        apply hp
        have : (fun (q : α × Int) => q.1) (a, c) ∈ ps.map (·.1) := List.mem_map_of_mem _ h2'
        rw [← heq1]
        exact this
    · rcases List.mem_cons.mp h2 with heq2 | h2'
      · exfalso
        apply hp
        have : (fun (q : α × Int) => q.1) (a, b) ∈ ps.map (·.1) := List.mem_map_of_mem _ h1'
        rw [← heq2]
        exact this
      · exact ih hps h1' h2'

theorem processInbox_no_gc (c : Client) (ch : String) :
    ∀ (inbox : List InboxEntry) (ops : List Op) (lists : List (String × List Envelope)),
      processInbox c inbox = Except.ok (ops, lists) →
      (∀ e ∈ inbox, e.1.1 = ch → gcFires c (listMin (e.2.2.map (·.2))) e.1.2 = false) →
      ∀ s : Backend, (applyOps ops s).messages ch = s.messages ch := by
  intro inbox
  induction inbox with
  | nil =>
    intro ops lists hp hgc s
    simp only [processInbox, Except.ok.injEq, Prod.mk.injEq] at hp
    obtain ⟨h1, _⟩ := hp
    subst h1
    rfl
  | cons e rest ih =>
    obtain ⟨⟨ch1, cur1⟩, raw, snap⟩ := e
    intro ops lists hp hgc s
    simp only [processInbox] at hp
    by_cases hraw : raw.isEmpty
    · rw [if_pos hraw] at hp
      exact ih ops lists hp (fun e he hche => hgc e (List.mem_cons_of_mem _ he) hche) s
    · rw [if_neg hraw] at hp
      split at hp
      · cases hp
      · rename_i msgs hdec
        split at hp
        · cases hp
        · split at hp
          · cases hp
          · rename_i ops' lists' hrest
            simp only [Except.ok.injEq, Prod.mk.injEq] at hp
            obtain ⟨hops, hlists⟩ := hp
            subst hops
            rw [applyOps_cons, applyOps_cons, applyOps_append]
            rw [ih ops' lists' hrest (fun e he hche => hgc e (List.mem_cons_of_mem _ he) hche)]
            by_cases hch : ch1 = ch
            · have hfalse := hgc ((ch1, cur1), raw, snap) (List.mem_cons_self _ _) hch
              rw [if_neg (by simp [hfalse])]
              rfl
            · have hne : ch ≠ ch1 := fun hh => hch hh.symm
              by_cases hfire : gcFires c (listMin (snap.map (·.2))) cur1
              · rw [if_pos hfire]
                show fupd s.messages ch1
                  (zremrangebyscore 0 (listMin (snap.map (·.2))) (s.messages ch1)) ch =
                    s.messages ch
                exact fupd_ne _ _ hne
              · rw [if_neg hfire]
                rfl

/-- C7: for a read with nonnegative bufsize, any channel whose clients
snapshot contains the reading client with score equal to the cursor stored
for that channel in the reader's duplicate-free indexes zset is never
GC-trimmed by that read: the snapshot minimum is at most the reader's own
cursor, the hysteresis test cannot fire, and messages(ch) is unchanged. -/
theorem read_no_gc_frame (c : Client) (limit : Int) (s : Backend) (ch : String) (cur : Int)
    (hbuf : 0 ≤ c.bufsize)
    (hnd : ((s.indexes c.client_id).map (·.1)).Nodup)
    (hidx : (ch, cur) ∈ s.indexes c.client_id)
    (hcl : zscore c.client_id (s.clients ch) = some cur) :
    ∀ r s', read c limit s = Except.ok (r, s') → s'.messages ch = s.messages ch := by
  intro r s' hr
  unfold read at hr
  cases hpp : processInbox c (inboxOf c limit s) with
  | error e => rw [hpp] at hr; cases hr
  | ok pr =>
    obtain ⟨ops, lists⟩ := pr
    rw [hpp] at hr
    simp only [Except.ok.injEq, Prod.mk.injEq] at hr
    obtain ⟨_, hs'⟩ := hr
    subst hs'
    apply processInbox_no_gc c ch _ ops lists hpp
    intro e he hche
    simp only [inboxOf, List.mem_map] at he
    obtain ⟨p, hpmem, rfl⟩ := he
    have hp2 : p ∈ s.indexes c.client_id := (sortByScore_perm _).mem_iff.mp hpmem
    have hcur : p.2 = cur := by
      have hmemp : (ch, p.2) ∈ s.indexes c.client_id := by
        rw [← hche]
        exact hp2
      exact zset_key_unique hnd hmemp hidx
    have hmem : (c.client_id, cur) ∈ s.clients ch := zscore_mem hcl
    have hsnap : cur ∈ (zrangeAll (s.clients p.1)).map (·.2) := by
      rw [hche]
      exact List.mem_map_of_mem _ ((sortByScore_perm _).mem_iff.mpr hmem)
    have hmin := listMin_le hsnap
    rw [hcur]
    simp only [gcFires, decide_eq_false_iff_not]
    omega

/-- Witness for C7: a concrete read on soleSubState leaves the messages of
channel x untouched. -/
theorem read_no_gc_frame_witness :
    (okState (read cA 512 soleSubState) soleSubState).messages "x" =
      soleSubState.messages "x" := by
  have h := read_no_gc_frame cA 512 soleSubState "x" 0 (by decide) (by decide)
    (by decide) (by decide)
  cases hr : read cA 512 soleSubState with
  | error e => rfl
  | ok pr => exact h pr.1 pr.2 (by rw [hr])

/-! Empty clients snapshot with nonempty messages makes read raise an
unhandled ValueError (C8). -/

theorem decodeAll_isSome {raw : List MsgRaw} (h : ∀ r ∈ raw, (decodeRaw r).isSome) :
    ∃ msgs, decodeAll raw = some msgs := by
  induction raw with
  | nil => exact ⟨[], rfl⟩
  | cons r rs ih =>
    obtain ⟨e, he⟩ := Option.isSome_iff_exists.mp (h r (List.mem_cons_self r rs))
    obtain ⟨msgs, hmsgs⟩ := ih (fun x hx => h x (List.mem_cons_of_mem _ hx))
    exact ⟨e :: msgs, by simp [decodeAll, he, hmsgs]⟩

theorem processInbox_empty_snapshot (c : Client) :
    ∀ inbox : List InboxEntry,
      (∀ e ∈ inbox, ∀ r ∈ e.2.1, (decodeRaw r).isSome) →
      (∃ e ∈ inbox, e.2.1 ≠ [] ∧ e.2.2 = []) →
      processInbox c inbox = Except.error PyErr.valueError := by
  intro inbox
  induction inbox with
  | nil =>
    intro _ hbad
    obtain ⟨e, he, _⟩ := hbad
    cases he
  | cons e0 rest ih =>
    obtain ⟨⟨ch, cur⟩, raw, snap⟩ := e0
    intro hdec hbad
    simp only [processInbox]
    by_cases hraw : raw.isEmpty
    · rw [if_pos hraw]
      apply ih (fun e he => hdec e (List.mem_cons_of_mem _ he))
      obtain ⟨e', he', hb1, hb2⟩ := hbad
      rcases List.mem_cons.mp he' with rfl | hrest'
      · exact absurd (List.isEmpty_iff.mp hraw) hb1
      · exact ⟨e', hrest', hb1, hb2⟩
    · rw [if_neg hraw]
      obtain ⟨msgs, hmsgs⟩ := decodeAll_isSome
        (hdec ((ch, cur), raw, snap) (List.mem_cons_self _ _))
      simp only [hmsgs]
      by_cases hsnap : snap.isEmpty
      · rw [if_pos hsnap]
      · rw [if_neg hsnap]
        obtain ⟨e', he', hb1, hb2⟩ := hbad
        rcases List.mem_cons.mp he' with rfl | hrest'
        · exact absurd (List.isEmpty_iff.mpr hb2) hsnap
        · have hrec := ih (fun e he => hdec e (List.mem_cons_of_mem _ he)) ⟨e', hrest', hb1, hb2⟩
          simp only [hrec]

theorem processInbox_ok_snapshots (c : Client) :
    ∀ (inbox : List InboxEntry) (ops : List Op) (lists : List (String × List Envelope)),
      processInbox c inbox = Except.ok (ops, lists) →
      ∀ e ∈ inbox, e.2.1 ≠ [] → e.2.2 ≠ [] := by
  intro inbox
  induction inbox with
  | nil =>
    intro ops lists _ e he
    cases he
  | cons e0 rest ih =>
    obtain ⟨⟨ch, cur⟩, raw, snap⟩ := e0
    intro ops lists hp e he hraw'
    simp only [processInbox] at hp
    by_cases hraw : raw.isEmpty
    · rw [if_pos hraw] at hp
      rcases List.mem_cons.mp he with rfl | hrest'
      · exact absurd (List.isEmpty_iff.mp hraw) hraw'
      · exact ih ops lists hp e hrest' hraw'
    · rw [if_neg hraw] at hp
      split at hp
      · cases hp
      · rename_i msgs hdec
        split at hp
        · cases hp
        · rename_i hsnap
          split at hp
          · cases hp
          · rename_i ops' lists' hrest
            rcases List.mem_cons.mp he with rfl | hrest'
            · intro hcon
              exact hsnap (List.isEmpty_iff.mpr hcon)
            · exact ih ops' lists' hrest e hrest' hraw'

/-- C8: if, among the query results of a read sweep, some channel returned at
least one message while its clients snapshot is empty, then (provided every
returned member decodes, so that the decode step passes first) read fails
with the unhandled ValueError from the tuple unpacking, which is none of the
three error kinds of the taxonomy; conversely a read only completes when
every channel that returned messages has a nonempty clients snapshot. -/
theorem read_empty_snapshot (c : Client) (limit : Int) (s : Backend) :
    ((∀ e ∈ inboxOf c limit s, ∀ r ∈ e.2.1, (decodeRaw r).isSome) →
      (∃ e ∈ inboxOf c limit s, e.2.1 ≠ [] ∧ e.2.2 = []) →
      read c limit s = Except.error PyErr.valueError ∧
      PyErr.valueError ≠ PyErr.backendError ∧ PyErr.valueError ≠ PyErr.timeoutError ∧
      PyErr.valueError ≠ PyErr.connectionError) ∧
    (∀ r s', read c limit s = Except.ok (r, s') →
      ∀ e ∈ inboxOf c limit s, e.2.1 ≠ [] → e.2.2 ≠ []) := by
  constructor
  · intro hdec hbad
    have herr := processInbox_empty_snapshot c (inboxOf c limit s) hdec hbad
    refine ⟨?_, by decide, by decide, by decide⟩
    simp only [read, herr]
  · intro r s' hr e he hraw
    unfold read at hr
    cases hpp : processInbox c (inboxOf c limit s) with
    | error e0 => rw [hpp] at hr; cases hr
    | ok pr =>
      obtain ⟨ops, lists⟩ := pr
      exact processInbox_ok_snapshots c _ ops lists hpp e he hraw

/-- A state with a subscription entry for client B on channel x, one
buffered message, and an empty clients zset (as another actor could leave it
under concurrency). -/
def orphanCursorState : Backend :=
  { messages := fun ch =>
      if ch = "x" then [(MsgRaw.good { id := 1, ts := 0, src := "A", data := "d" }, 1)] else []
  , ids := fun ch => if ch = "x" then 1 else 0
  , clients := fun _ => []
  , indexes := fun cl => if cl = "B" then [("x", 0)] else [] }

/-- Witness for C8: on orphanCursorState the read of client B fails with the
unhandled ValueError. -/
theorem read_empty_snapshot_witness :
    read cB 512 orphanCursorState = Except.error PyErr.valueError :=
  ((read_empty_snapshot cB 512 orphanCursorState).1 (by decide) (by decide)).1

/-! Decode failure surfaces as the unhandled json error, not BackendError (C6). -/

/-- A state holding a corrupt envelope in channel x, subscribed by client B. -/
def corruptState : Backend :=
  { messages := fun ch => if ch = "x" then [(MsgRaw.corrupt "zz", 1)] else []
  , ids := fun ch => if ch = "x" then 1 else 0
  , clients := fun ch => if ch = "x" then [("B", 0)] else []
  , indexes := fun cl => if cl = "B" then [("x", 0)] else [] }

/-- Counterexample to C6 as stated: on corruptState the decode failure in
read surfaces as the raw json decode error, which is not BackendError. -/
theorem decode_error_cex :
    readLists cB 512 corruptState = Except.error PyErr.jsonDecodeError ∧
    PyErr.jsonDecodeError ≠ PyErr.backendError := by decide

/-- C6 amended: whenever decoding a stored message envelope fails during
read, the operation raises the unhandled json.JSONDecodeError (a ValueError
subclass outside the rivulet taxonomy), because the json.loads comprehension
sits outside every try block of read; it is not converted to BackendError. -/
theorem decode_error_amended (c : Client) (limit : Int) (s : Backend) (ch : String)
    (cur : Int) (h1 : s.indexes c.client_id = [(ch, cur)])
    (h2 : decodeAll (zrangebyscoreMembers (cur + 1) (cur + limit) (s.messages ch)) = none) :
    read c limit s = Except.error PyErr.jsonDecodeError := by
  have hz : zrangeAll (s.indexes c.client_id) = [(ch, cur)] := by rw [h1]; rfl
  have hraw : ¬ (zrangebyscoreMembers (cur + 1) (cur + limit) (s.messages ch)).isEmpty := by
    intro hcon
    rw [List.isEmpty_iff.mp hcon] at h2
    simp [decodeAll] at h2
  simp only [read, inboxOf, hz, List.map_cons, List.map_nil, processInbox]
  rw [if_neg hraw]
  simp only [h2]

/-- Witness for the amended C6: the corrupt member of corruptState makes the
read of client B fail with the json decode error. -/
theorem decode_error_amended_witness :
    read cB 512 corruptState = Except.error PyErr.jsonDecodeError :=
  decode_error_amended cB 512 corruptState "x" 0 (by decide) (by decide)

/-! LATEST does not always skip history, EARLIEST does not always replay all
retained messages (C1, C2). -/

/-- A channel x holding one buffered message and no subscriber at all (a
state reached by a single write into a fresh channel). -/
def orphanMsgState : Backend := write cA "x" "d" 0 initState

/-- The state after client A subscribes to channel x, two messages are
written, and A reads them: A's cursor is 2 while both messages remain. -/
def consumedState : Backend := okState (read cA 512 soleSubState) initState

/-- Counterexample to C1 as stated: client B is fresh for channel x, joins
with LATEST on a channel holding one buffered message and no subscriber, and
an immediately following read returns that message rather than zero
messages (LATEST resolves to the max of the subscriber cursors, 0 here, not
to the max message id). -/
theorem latest_skip_cex :
    readLists cB 512 (subscribe cB IndexPolicy.LATEST ["x"] orphanMsgState) =
      Except.ok [("x", [{ id := 1, ts := 0, src := "A", data := "d" }])] ∧
    orphanMsgState.clients "x" = [] := by decide

/-- C1 amended: a fresh LATEST subscriber starts at the maximum of the
current subscriber cursors (0 when the channel has none); when every
retained message of the channel has id at most that maximum (for instance
when some subscriber has consumed everything buffered), an immediately
following read returns zero messages and leaves the backend unchanged, so
subsequent reads start strictly after the subscription cursor. -/
theorem latest_skip_amended (c : Client) (limit : Int) (s : Backend) (ch : String)
    (hfresh : s.indexes c.client_id = [])
    (hcons : ∀ p ∈ s.messages ch, p.2 ≤ latestCursor s ch) :
    (subscribe c IndexPolicy.LATEST [ch] s).indexes c.client_id =
      [(ch, latestCursor s ch)] ∧
    read c limit (subscribe c IndexPolicy.LATEST [ch] s) =
      Except.ok ([], subscribe c IndexPolicy.LATEST [ch] s) := by
  have hm : (subscribe c IndexPolicy.LATEST [ch] s).indexes c.client_id =
      [(ch, latestCursor s ch)] := by
    show (fupd s.indexes c.client_id
      (zadd ch (latestCursor s ch) (s.indexes c.client_id))) c.client_id = _
    rw [fupd_same, hfresh]
    rfl
  refine ⟨hm, ?_⟩
  have hz : zrangeAll ((subscribe c IndexPolicy.LATEST [ch] s).indexes c.client_id) =
      [(ch, latestCursor s ch)] := by
    rw [hm]
    rfl
  have hraw : zrangebyscoreMembers (latestCursor s ch + 1) (latestCursor s ch + limit)
      ((subscribe c IndexPolicy.LATEST [ch] s).messages ch) = [] := by
    show zrangebyscoreMembers _ _ (s.messages ch) = []
    unfold zrangebyscoreMembers
    have hf : (s.messages ch).filter
        (fun p => decide (latestCursor s ch + 1 ≤ p.2 ∧ p.2 ≤ latestCursor s ch + limit)) = [] := by
      rw [List.filter_eq_nil_iff]
      intro p hp
      have := hcons p hp
      simp only [decide_eq_true_eq]
      omega
    rw [hf]
    rfl
  have hproc : processInbox c
      (inboxOf c limit (subscribe c IndexPolicy.LATEST [ch] s)) = Except.ok ([], []) := by
    simp only [inboxOf, hz, List.map_cons, List.map_nil, processInbox]
    rw [hraw]
    rfl
  simp only [read, hproc]
  rfl

/-- Witness for the amended C1: on consumedState (sole subscriber A with
cursor 2, messages 1 and 2 retained) a fresh LATEST join of B starts at
cursor 2 and B's immediate read returns nothing and changes nothing. -/
theorem latest_skip_witness :
    (subscribe cB IndexPolicy.LATEST ["x"] consumedState).indexes cB.client_id =
      [("x", latestCursor consumedState "x")] ∧
    read cB 512 (subscribe cB IndexPolicy.LATEST ["x"] consumedState) =
      Except.ok ([], subscribe cB IndexPolicy.LATEST ["x"] consumedState) :=
  latest_skip_amended cB 512 consumedState "x" (by decide) (by decide)

/-- Counterexample to C2 as stated: on consumedState the messages with ids 1
and 2 are still present in messages(x), yet a fresh EARLIEST subscriber B
(joining at the minimum cursor, 2) reads zero messages on its next read. -/
theorem earliest_replay_cex :
    readLists cB 512 (subscribe cB IndexPolicy.EARLIEST ["x"] consumedState) =
      Except.ok [] ∧
    consumedState.messages "x" ≠ [] := by decide

theorem decodeAll_eq_map {raw : List MsgRaw} {L : List Envelope}
    (h : decodeAll raw = some L) : raw = L.map MsgRaw.good := by
  induction raw generalizing L with
  | nil =>
    simp only [decodeAll, Option.some.injEq] at h
    subst h
    rfl
  | cons r rs ih =>
    simp only [decodeAll] at h
    cases hr : decodeRaw r with
    | none =>
      simp only [hr] at h
      cases h
    | some e =>
      cases hrs : decodeAll rs with
      | none =>
        simp only [hr, hrs] at h
        cases h
      | some es =>
        simp only [hr, hrs, Option.some.injEq] at h
        subst h
        have hre : r = MsgRaw.good e := by
          cases r
          · simp only [decodeRaw, Option.some.injEq] at hr
            rw [hr]
          · simp only [decodeRaw] at hr
            cases hr
        rw [hre, ih hrs]
        rfl

/-- C2 amended: a fresh EARLIEST subscriber starts at the minimum of the
current subscriber cursors, which is 0 exactly when the channel has no
subscriber; in that no-subscriber case its next read returns every message
still present in messages(ch) whose id lies within message_limit; messages
at or below the minimum cursor, though still retained, are skipped in
general (see the counterexample). -/
theorem earliest_replay_amended (c : Client) (limit : Int) (s : Backend) (ch : String)
    (hfresh : s.indexes c.client_id = [])
    (hnosub : s.clients ch = [])
    (hgood : ∀ p ∈ s.messages ch, (decodeRaw p.1).isSome ∧ 1 ≤ p.2 ∧ p.2 ≤ limit)
    (hne : s.messages ch ≠ []) :
    ∃ L, readLists c limit (subscribe c IndexPolicy.EARLIEST [ch] s) =
        Except.ok [(ch, L)] ∧
      (L.map MsgRaw.good).Perm ((s.messages ch).map (·.1)) := by
  have hcur : earliestCursor s ch = 0 := by
    simp [earliestCursor, scoresOrZero, hnosub, listMin]
  have hm : (subscribe c IndexPolicy.EARLIEST [ch] s).indexes c.client_id = [(ch, 0)] := by
    show (fupd s.indexes c.client_id
      (zadd ch (earliestCursor s ch) (s.indexes c.client_id))) c.client_id = _
    rw [fupd_same, hfresh, hcur]
    rfl
  have hz : zrangeAll ((subscribe c IndexPolicy.EARLIEST [ch] s).indexes c.client_id) =
      [(ch, 0)] := by
    rw [hm]
    rfl
  have hfilter : (s.messages ch).filter
      (fun p => decide ((0 : Int) + 1 ≤ p.2 ∧ p.2 ≤ 0 + limit)) = s.messages ch := by
    rw [List.filter_eq_self]
    intro p hp
    have := (hgood p hp).2
    simp only [decide_eq_true_eq]
    omega
  have hraw : zrangebyscoreMembers ((0 : Int) + 1) (0 + limit)
      ((subscribe c IndexPolicy.EARLIEST [ch] s).messages ch) =
      (sortByScore (s.messages ch)).map (·.1) := by
    show zrangebyscoreMembers ((0 : Int) + 1) (0 + limit) (s.messages ch) = _
    unfold zrangebyscoreMembers
    rw [hfilter]
  have hrawne : ((sortByScore (s.messages ch)).map (·.1)) ≠ [] := by
    intro hcon
    apply hne
    have h0 : (s.messages ch).length = 0 := by
      rw [← (sortByScore_perm (s.messages ch)).length_eq, ← List.length_map
        (sortByScore (s.messages ch)) (·.1), hcon]
      rfl
    exact List.length_eq_zero.mp h0
  have hdecs : ∀ r ∈ (sortByScore (s.messages ch)).map (·.1), (decodeRaw r).isSome := by
    intro r hr
    obtain ⟨p, hpmem, rfl⟩ := List.mem_map.mp hr
    exact (hgood p ((sortByScore_perm _).mem_iff.mp hpmem)).1
  obtain ⟨L, hL⟩ := decodeAll_isSome hdecs
  have hsnap : zrangeAll ((subscribe c IndexPolicy.EARLIEST [ch] s).clients ch) =
      [(c.client_id, 0)] := by
    show zrangeAll (fupd s.clients ch
      (zadd c.client_id (earliestCursor s ch) (s.clients ch)) ch) = _
    rw [fupd_same, hnosub, hcur]
    rfl
  have hproc : ∃ ops, processInbox c
      (inboxOf c limit (subscribe c IndexPolicy.EARLIEST [ch] s)) =
      Except.ok (ops, [(ch, L)]) := by
    simp only [inboxOf, hz, List.map_cons, List.map_nil, processInbox]
    rw [hraw, hsnap]
    rw [if_neg (by simpa [List.isEmpty_iff] using hrawne)]
    simp only [hL]
    rw [if_neg (by simp)]
    exact ⟨_, rfl⟩
  obtain ⟨ops, hops⟩ := hproc
  refine ⟨L, ?_, ?_⟩
  · simp only [readLists, read, hops, Except.map]
  · have hrawL := decodeAll_eq_map hL
    rw [← hrawL]
    exact (sortByScore_perm (s.messages ch)).map (·.1)

/-- Witness for the amended C2: on orphanMsgState (one message, no
subscribers) a fresh EARLIEST join of B observes every retained message. -/
theorem earliest_replay_witness :
    ∃ L, readLists cB 512 (subscribe cB IndexPolicy.EARLIEST ["x"] orphanMsgState) =
        Except.ok [("x", L)] ∧
      (L.map MsgRaw.good).Perm ((orphanMsgState.messages "x").map (·.1)) :=
  earliest_replay_amended cB 512 orphanMsgState "x" (by decide) (by decide)
    (by decide) (by decide)

/-! Idempotence of unsubscribe (C9). -/

/-- The messages value a channel ends with after one unsubscribe iteration,
as a function of the prior clients and messages values of that channel. -/
def unsubMsgs (cid : String) (cl : ZSet String) (ms : ZSet MsgRaw) : ZSet MsgRaw :=
  if (zrem cid cl).length ≠ 0 then zremrangebyscore 0 (zminScore (zrem cid cl)) ms else []

/-- The ids value a channel ends with after one unsubscribe iteration. -/
def unsubIds (cid : String) (cl : ZSet String) (n : Int) : Int :=
  if (zrem cid cl).length ≠ 0 then n else 0

theorem unsub_clients (c : Client) (s : Backend) (ch : String) :
    (unsubscribeChannel c s ch).clients =
      fupd s.clients ch (zrem c.client_id (s.clients ch)) := by
  simp only [unsubscribeChannel]
  split
  · rfl
  · rfl

theorem unsub_indexes (c : Client) (s : Backend) (ch : String) :
    (unsubscribeChannel c s ch).indexes =
      fupd s.indexes c.client_id (zrem ch (s.indexes c.client_id)) := by
  simp only [unsubscribeChannel]
  split
  · rfl
  · rfl

theorem unsub_messages (c : Client) (s : Backend) (ch : String) :
    (unsubscribeChannel c s ch).messages =
      fupd s.messages ch (unsubMsgs c.client_id (s.clients ch) (s.messages ch)) := by
  simp only [unsubscribeChannel, unsubMsgs]
  split
  · rfl
  · rfl

theorem unsub_ids (c : Client) (s : Backend) (ch : String) :
    (unsubscribeChannel c s ch).ids =
      fupd s.ids ch (unsubIds c.client_id (s.clients ch) (s.ids ch)) := by
  simp only [unsubscribeChannel, unsubIds]
  split
  · exact (fupd_eq_self s.ids ch (s.ids ch) rfl).symm
  · rfl

theorem zremrangebyscore_idem {α : Type} (lo hi : Int) (z : ZSet α) :
    zremrangebyscore lo hi (zremrangebyscore lo hi z) = zremrangebyscore lo hi z := by
  simp only [zremrangebyscore, List.filter_filter]
  congr 1
  funext p
  exact Bool.and_self _

theorem unsubMsgs_stable (cid : String) (cl : ZSet String) (ms : ZSet MsgRaw) :
    unsubMsgs cid (zrem cid cl) (unsubMsgs cid cl ms) = unsubMsgs cid cl ms := by
  unfold unsubMsgs
  rw [zrem_idem]
  by_cases h : (zrem cid cl).length ≠ 0
  · simp only [if_pos h, zremrangebyscore_idem]
  · simp only [if_neg h]

theorem unsubIds_stable (cid : String) (cl : ZSet String) (n : Int) :
    unsubIds cid (zrem cid cl) (unsubIds cid cl n) = unsubIds cid cl n := by
  unfold unsubIds
  rw [zrem_idem]
  by_cases h : (zrem cid cl).length ≠ 0
  · simp only [if_pos h]
  · simp only [if_neg h]

theorem unsubscribeChannel_idem (c : Client) (s : Backend) (ch : String) :
    unsubscribeChannel c (unsubscribeChannel c s ch) ch = unsubscribeChannel c s ch := by
  apply backendExt
  · rw [unsub_messages, unsub_messages, unsub_clients, fupd_same, fupd_same,
      fupd_fupd_same, unsubMsgs_stable]
  · rw [unsub_ids, unsub_ids, unsub_clients, fupd_same, fupd_same,
      fupd_fupd_same, unsubIds_stable]
  · rw [unsub_clients, unsub_clients, fupd_same, zrem_idem, fupd_fupd_same]
  · rw [unsub_indexes, unsub_indexes, fupd_same, zrem_idem, fupd_fupd_same]

theorem unsubscribeChannel_comm (c : Client) (s : Backend) {a b : String} (hab : a ≠ b) :
    unsubscribeChannel c (unsubscribeChannel c s b) a =
      unsubscribeChannel c (unsubscribeChannel c s a) b := by
  apply backendExt
  · rw [unsub_messages c (unsubscribeChannel c s b) a,
      unsub_messages c (unsubscribeChannel c s a) b,
      unsub_messages c s a, unsub_messages c s b, unsub_clients c s a, unsub_clients c s b,
      fupd_ne _ _ hab, fupd_ne _ _ hab, fupd_ne _ _ (Ne.symm hab), fupd_ne _ _ (Ne.symm hab)]
    exact fupd_comm s.messages _ _ (Ne.symm hab)
  · rw [unsub_ids c (unsubscribeChannel c s b) a,
      unsub_ids c (unsubscribeChannel c s a) b,
      unsub_ids c s a, unsub_ids c s b, unsub_clients c s a, unsub_clients c s b,
      fupd_ne _ _ hab, fupd_ne _ _ hab, fupd_ne _ _ (Ne.symm hab), fupd_ne _ _ (Ne.symm hab)]
    exact fupd_comm s.ids _ _ (Ne.symm hab)
  · rw [unsub_clients c (unsubscribeChannel c s b) a,
      unsub_clients c (unsubscribeChannel c s a) b,
      unsub_clients c s a, unsub_clients c s b,
      fupd_ne _ _ hab, fupd_ne _ _ (Ne.symm hab)]
    exact fupd_comm s.clients _ _ (Ne.symm hab)
  · rw [unsub_indexes c (unsubscribeChannel c s b) a,
      unsub_indexes c (unsubscribeChannel c s a) b,
      unsub_indexes c s a, unsub_indexes c s b,
      fupd_same, fupd_same, fupd_fupd_same, fupd_fupd_same, zrem_comm]

theorem unsubscribe_settled (c : Client) (ch : String) :
    ∀ (chans : List String) (t : Backend),
      unsubscribeChannel c t ch = t →
      unsubscribeChannel c (unsubscribe c chans t) ch = unsubscribe c chans t := by
  intro chans
  induction chans with
  | nil => intro t ht; exact ht
  | cons b bs ih =>
    intro t ht
    show unsubscribeChannel c (unsubscribe c bs (unsubscribeChannel c t b)) ch = _
    apply ih
    by_cases hb : ch = b
    · subst hb
      exact unsubscribeChannel_idem c t ch
    · rw [unsubscribeChannel_comm c t hb, ht]

theorem unsubscribe_all_settled (c : Client) :
    ∀ (chans : List String) (s : Backend) (ch : String), ch ∈ chans →
      unsubscribeChannel c (unsubscribe c chans s) ch = unsubscribe c chans s := by
  intro chans
  induction chans with
  | nil =>
    intro s ch h
    cases h
  | cons b bs ih =>
    intro s ch h
    rcases List.mem_cons.mp h with rfl | hbs
    · show unsubscribeChannel c (unsubscribe c bs (unsubscribeChannel c s ch)) ch = _
      exact unsubscribe_settled c ch bs _ (unsubscribeChannel_idem c s ch)
    · exact ih (unsubscribeChannel c s b) ch hbs

theorem unsubscribe_fixpoint (c : Client) :
    ∀ (chans : List String) (t : Backend),
      (∀ ch ∈ chans, unsubscribeChannel c t ch = t) → unsubscribe c chans t = t := by
  intro chans
  induction chans with
  | nil => intro t _; rfl
  | cons b bs ih =>
    intro t ht
    show unsubscribe c bs (unsubscribeChannel c t b) = t
    rw [ht b (List.mem_cons_self b bs)]
    exact ih t (fun ch hch => ht ch (List.mem_cons_of_mem _ hch))

theorem unsubscribe_twice (c : Client) (chans : List String) (s : Backend) :
    unsubscribe c chans (unsubscribe c chans s) = unsubscribe c chans s :=
  unsubscribe_fixpoint c chans _ (fun ch hch => unsubscribe_all_settled c chans s ch hch)

theorem unsubscribe_noop (c : Client) (ch : String) (s : Backend)
    (h1 : s.clients ch = []) (h2 : s.messages ch = []) (h3 : s.ids ch = 0)
    (h4 : ∀ p ∈ s.indexes c.client_id, p.1 ≠ ch) :
    unsubscribe c [ch] s = s := by
  show unsubscribeChannel c s ch = s
  apply backendExt
  · rw [unsub_messages]
    apply fupd_eq_self
    rw [h1, h2]
    rfl
  · rw [unsub_ids]
    apply fupd_eq_self
    rw [h1, h3]
    rfl
  · rw [unsub_clients]
    apply fupd_eq_self
    rw [h1]
    rfl
  · rw [unsub_indexes]
    apply fupd_eq_self
    rw [zrem_eq_self h4]

/-- Counterexample to C9 as stated: client B was never subscribed to channel
x (its indexes zset is empty), yet unsubscribing B on consumedState deletes
the retained messages 1 and 2 of x (the strong-GC path trims up to the
remaining subscriber minimum), so unsubscribe on a never-subscribed channel
is not always a no-op on backend state. -/
theorem unsubscribe_noop_cex :
    (unsubscribe cB ["x"] consumedState).messages "x" ≠ consumedState.messages "x" ∧
    (∀ p ∈ consumedState.indexes cB.client_id, p.1 ≠ "x") := by decide

/-- C9 amended: unsubscribe is idempotent (running it twice with the same
channel list reaches the same end state as running it once) and raises no
error; on a truly non-existent channel (no clients, no messages, no counter,
no index entry) it is a strict no-op; but on a channel this client never
subscribed to it may still trim or delete data (see the counterexample). -/
theorem unsubscribe_idem_amended :
    (∀ (c : Client) (chans : List String) (s : Backend),
        unsubscribe c chans (unsubscribe c chans s) = unsubscribe c chans s) ∧
    (∀ (c : Client) (ch : String) (s : Backend),
        s.clients ch = [] → s.messages ch = [] → s.ids ch = 0 →
        (∀ p ∈ s.indexes c.client_id, p.1 ≠ ch) →
        unsubscribe c [ch] s = s) :=
  ⟨unsubscribe_twice, fun c ch s h1 h2 h3 h4 => unsubscribe_noop c ch s h1 h2 h3 h4⟩

/-- Witness for the amended C9: a concrete double unsubscribe coincides with
the single one, and unsubscribing a non-existent channel on the empty
backend is a no-op. -/
theorem unsubscribe_idem_witness :
    (unsubscribe cB ["x", "y"] (unsubscribe cB ["x", "y"] consumedState) =
      unsubscribe cB ["x", "y"] consumedState) ∧
    unsubscribe cB ["zz"] initState = initState := by
  constructor
  · exact unsubscribe_idem_amended.1 cB ["x", "y"] consumedState
  · exact unsubscribe_idem_amended.2 cB "zz" initState rfl rfl rfl
      (fun p hp => by cases hp)

end Rivulet
